import Mathlib

/-!
# Verification of the NavYatra train-induction core

Shallow embedding of the assignment optimizer
(`src/ai-service/app/optimization/engine.py`), the autonomous decision
engine (`src/ai-service/app/ai_automation/decision_engine.py`) and the
adaptive-threshold loop of the intelligent scheduler
(`src/ai-service/app/ai_automation/intelligent_scheduler.py`), together
with proofs about the claims of the specification.

Modelling conventions:
* Python floats are modelled as rationals (`ℚ`); all arithmetic the
  embedded code performs is exact on the inputs considered.
* Python dicts keyed by trainset id are modelled as association lists
  (`List (String × ℕ)` and friends) in insertion order, with
  dict-semantics insertion (`dictInsert`) and in-place value update
  (`updateVal`).
* `datetime` values are modelled as total minutes since an epoch
  (`PyDateTime`); `date()` is floor-division by 1440, matching Python's
  date arithmetic where `(d1 - d2).days` subtracts day indices.
* Randomness (`np.random.*`) is modelled by explicit choice streams:
  each random draw becomes an explicit parameter, and driver outputs are
  characterised by reachability relations quantified over all choices.
* String fields that no claim mentions (rationales, explanations,
  log messages) are elided from the record models.
-/

namespace NavYatra

/-- Engine-side trainset record (`TrainsetData` in
`app/models/optimization.py`), restricted to the fields the optimization
engine reads.  `status` carries the enum value string
(`"AVAILABLE"`, `"MAINTENANCE"`, ...). -/
structure TrainsetData where
  trainset_id : String
  status : String
  fitness_valid : Bool
  has_high_priority_jobs : Bool
  current_mileage : ℚ
  branding_priority : ℤ
  deriving DecidableEq, Repr

/-- A (partial) assignment of trainset ids to stabling positions,
modelling the Python dict `trainset_id -> position` in insertion
order. -/
abbrev Assignment := List (String × ℕ)

/-- Keys of an assignment dict. -/
def keysOf (A : Assignment) : List String := A.map Prod.fst

/-- Values (positions) of an assignment dict. -/
def valsOf (A : Assignment) : List ℕ := A.map Prod.snd

/-- Dict lookup `A[k]` (first entry wins; under the no-duplicate-keys
invariant this is the dict entry). -/
def lookupPos (A : Assignment) (k : String) : Option ℕ :=
  (A.find? (fun p => p.1 == k)).map Prod.snd

/-- Python dict assignment `A[k] = v`: replaces the value in place when
the key is present, otherwise appends at the end (dict insertion
order). -/
def dictInsert (A : Assignment) (k : String) (v : ℕ) : Assignment :=
  if (keysOf A).contains k then
    A.map (fun p => if p.1 == k then (p.1, v) else p)
  else A ++ [(k, v)]

/-- In-place value update `A[k] = v` for a key already present
(used where the Python code only ever re-assigns existing keys). -/
def updateVal (A : Assignment) (k : String) (v : ℕ) : Assignment :=
  A.map (fun p => if p.1 == k then (p.1, v) else p)

/-! ## Shared scoring function (`_calculate_solution_score`) -/

/-- Weight of the mileage-balance soft constraint
(`SCHEDULING_CONSTRAINTS["mileage_balance"]["weight"]` in
`app/utils/config.py`). -/
def mileage_balance_weight : ℚ := 6/10

/-- Weight of the branding-priority soft constraint
(`SCHEDULING_CONSTRAINTS["branding_priority"]["weight"]`). -/
def branding_priority_weight : ℚ := 3/10

/-- `MAX_STABLING_POSITIONS` from `app/utils/config.py`. -/
def MAX_STABLING_POSITIONS : ℤ := 30

/-- `np.mean([ts.current_mileage for ts in trainsets])`.  (The code only
evaluates this under a successful dict lookup, hence on a non-empty
fleet; the `/ 0 = 0` convention of `ℚ` is never exercised there.) -/
def avgMileage (trainsets : List TrainsetData) : ℚ :=
  (trainsets.map (·.current_mileage)).sum / trainsets.length

/-- The dict `{ts.trainset_id: ts for ts in trainsets}` looked up at
`tid`: the *last* record with that id wins, as in a Python dict
comprehension. -/
def trainsetDict (trainsets : List TrainsetData) (tid : String) : Option TrainsetData :=
  trainsets.reverse.find? (fun ts => ts.trainset_id == tid)

/-- Per-pair contribution of `_calculate_solution_score`
(`engine.py` lines 430-457), transcribed statement by statement. -/
def pairScoreCode (trainsets : List TrainsetData) (trainset : TrainsetData)
    (position : ℕ) : ℚ :=
  let score : ℚ := 100
  let score := if ¬trainset.fitness_valid then score - 1000 else score + 50
  let score := if trainset.has_high_priority_jobs then score - 500 else score
  let avg_mileage := avgMileage trainsets
  let mileage_diff := |trainset.current_mileage - avg_mileage|
  let mileage_score := max 0 (100 - mileage_diff / 1000)
  let score := score + mileage_score * mileage_balance_weight
  let branding_score := (trainset.branding_priority : ℚ) * 20
  let score := score + branding_score * branding_priority_weight
  let position_score := max 0 (50 - (position : ℚ) * 2)
  let score := score + position_score
  score

/-- `_calculate_solution_score(assignments, trainsets)`
(`engine.py` lines 415-459): accumulate the per-pair score over the
assignment dict, skipping ids absent from the fleet snapshot. -/
def calculate_solution_score (assignments : Assignment)
    (trainsets : List TrainsetData) : ℚ :=
  assignments.foldl
    (fun total_score p =>
      match trainsetDict trainsets p.1 with
      | none => total_score
      | some trainset => total_score + pairScoreCode trainsets trainset p.2)
    0

/-! ## `optimize_schedule` entry point (`engine.py` lines 39-102, 528-550) -/

/-- The fields of `OptimizationRequest` (`app/models/optimization.py`)
that `optimize_schedule` and `_validate_input` read. -/
structure OptimizationRequest where
  optimization_id : String
  algorithm : Option String
  max_trainsets : ℤ
  deriving DecidableEq, Repr

/-- The fields of the internal `OptimizationSolution` dataclass that the
entry point reads. -/
structure OptimizationSolution where
  trainset_assignments : Assignment
  score : ℚ
  deriving DecidableEq, Repr

/-- The fields of `OptimizationResult` that the claims mention. -/
structure OptimizationResult where
  optimization_id : String
  algorithm : String
  score : ℚ
  trainset_assignments : Assignment
  status : String
  deriving DecidableEq, Repr

/-- An exception propagating out of a Python call: its type name, and
the message of the chained (`__context__`) exception when the raise
happened while handling another exception. -/
structure PyRaise where
  kind : String
  context : Option String
  deriving DecidableEq, Repr

/-- Outcome of calling `optimize_schedule`: either a returned
`OptimizationResult`, or an exception propagating to the caller. -/
inductive OptOutcome
  | result (r : OptimizationResult)
  | raised (e : PyRaise)
  deriving DecidableEq, Repr

/-- The per-trainset half of `_validate_input` (lines 545-550). -/
def validateTrainsetList : List TrainsetData → Except String Unit
  | [] => .ok ()
  | t :: rest =>
    if t.trainset_id = "" then .error "trainset_id cannot be empty"
    else if t.current_mileage < 0 then .error "Invalid mileage"
    else validateTrainsetList rest

/-- `_validate_input(request, trainsets)` (`engine.py` lines 528-550):
the first failing check raises a `ValueError` with its message. -/
def validate_input (request : OptimizationRequest)
    (trainsets : List TrainsetData) : Except String Unit :=
  if trainsets.isEmpty then .error "No trainsets provided for optimization"
  else if request.max_trainsets ≤ 0 then .error "max_trainsets must be positive"
  else if request.max_trainsets > MAX_STABLING_POSITIONS then
    .error "max_trainsets cannot exceed MAX_STABLING_POSITIONS"
  else validateTrainsetList trainsets

/-- Python `x or default` on an optional string (`None` and `""` are
falsy). -/
def pyOrString : Option String → String → String
  | none, d => d
  | some s, d => if s = "" then d else s

/-- `optimize_schedule` (`engine.py` lines 39-102).  The algorithm
drivers themselves are abstracted as `solve` (they are modelled
separately below); `solve` returning `.error` models an exception
raised during solving, which the `except` block converts into a
failed result.  When validation raises, the `except` handler itself
references the local variable `algorithm`, which is still unbound at
that point (it is only assigned after `_validate_input` returns), so
the handler raises `UnboundLocalError` with the original `ValueError`
as chained context. -/
def optimize_schedule (request : OptimizationRequest)
    (trainsets : List TrainsetData)
    (solve : String → List TrainsetData → Except String OptimizationSolution) :
    OptOutcome :=
  match validate_input request trainsets with
  | .error msg => .raised { kind := "UnboundLocalError", context := some msg }
  | .ok _ =>
    let algorithm := pyOrString request.algorithm "constraint_programming"
    match solve algorithm trainsets with
    | .error _ =>
      .result { optimization_id := request.optimization_id, algorithm := algorithm,
                score := 0, trainset_assignments := [], status := "failed" }
    | .ok solution =>
      .result { optimization_id := request.optimization_id, algorithm := algorithm,
                score := solution.score,
                trainset_assignments := solution.trainset_assignments,
                status := if solution.score > 0 then "completed" else "failed" }

/-! ## Adaptive-learning tick of the intelligent scheduler
(`intelligent_scheduler.py` lines 1134-1155) -/

/-- The two adaptive thresholds of `IntelligentSchedulingEngine`. -/
structure SchedulerThresholds where
  confidence_threshold : ℚ
  auto_execution_threshold : ℚ
  deriving DecidableEq, Repr

/-- The constructor values (`intelligent_scheduler.py` lines 88-89). -/
def initialThresholds : SchedulerThresholds := ⟨75/100, 85/100⟩

/-- `_optimize_scheduling_parameters` (lines 1134-1155): one
adaptive-learning tick.  A performance-history entry is the optional
`actual_performance` value of the record (`.get` defaults it to
0.8). -/
def optimize_scheduling_parameters (performance_history : List (Option ℚ))
    (s : SchedulerThresholds) : SchedulerThresholds :=
  if performance_history.length < 10 then s
  else
    let recent_performance := performance_history.drop (performance_history.length - 20)
    let success_rate : ℚ :=
      ((recent_performance.filter
          (fun p => decide ((7 : ℚ)/10 < p.getD (8/10)))).length : ℚ) /
        recent_performance.length
    if success_rate > 9/10 then
      ⟨max (70/100) (s.confidence_threshold - 1/100),
       max (80/100) (s.auto_execution_threshold - 1/100)⟩
    else if success_rate < 7/10 then
      ⟨min (85/100) (s.confidence_threshold + 1/100),
       min (95/100) (s.auto_execution_threshold + 1/100)⟩
    else s

/-- The bounds claim C9 states for the two thresholds. -/
def thresholdsInBounds (s : SchedulerThresholds) : Prop :=
  70/100 ≤ s.confidence_threshold ∧ s.confidence_threshold ≤ 85/100 ∧
    80/100 ≤ s.auto_execution_threshold ∧ s.auto_execution_threshold ≤ 95/100

/-! ## Decision engine (`app/ai_automation/decision_engine.py`) -/

/-- A Python `datetime`, as total minutes since an epoch.  `date()` is
the day index (floor division), so `(d1 - d2).days` on dates is the
difference of day indexes, and `timedelta` addition is addition of
minutes. -/
structure PyDateTime where
  totalMinutes : ℤ
  deriving DecidableEq, Repr

/-- `datetime.date()` as a day index. -/
def PyDateTime.date (t : PyDateTime) : ℤ := t.totalMinutes.fdiv 1440

/-- `datetime.hour`. -/
def PyDateTime.hour (t : PyDateTime) : ℤ := (t.totalMinutes.emod 1440).fdiv 60

/-- `datetime.minute`. -/
def PyDateTime.minute (t : PyDateTime) : ℤ := t.totalMinutes.emod 60

/-- `t + timedelta(minutes=m)`. -/
def PyDateTime.addMinutes (t : PyDateTime) (m : ℤ) : PyDateTime :=
  ⟨t.totalMinutes + m⟩

/-- `DecisionType` (`decision_engine.py` lines 21-28). -/
inductive DecisionType
  | SCHEDULE_OPTIMIZATION | MAINTENANCE_SCHEDULING | EMERGENCY_RESPONSE
  | RESOURCE_ALLOCATION | ROUTE_ADJUSTMENT | CLEANING_SCHEDULE
  deriving DecidableEq, Repr

/-- `DecisionUrgency` (lines 31-36). -/
inductive DecisionUrgency
  | LOW | MEDIUM | HIGH | CRITICAL
  deriving DecidableEq, Repr

/-- A trainset dict as consumed by the decision engine's evaluators
(`_get_current_trainsets` records); optional dates are day indexes. -/
structure FleetRecord where
  trainset_id : String
  status : String
  fitness_expiry_date : Option ℤ := none
  last_cleaning_date : Option ℤ := none
  deriving DecidableEq, Repr

/-- The `AIDecision` dataclass (lines 39-53), restricted to the fields
the claims mention; the action plan is represented by its `action` tag
and the trainset id it carries.  `approved` models the dynamically set
attribute (`hasattr(decision, 'approved') and decision.approved` is
false when the attribute was never set). -/
structure AIDecision where
  decision_id : String
  decision_type : DecisionType
  urgency : DecisionUrgency
  timestamp : PyDateTime
  confidence : ℚ
  action : String
  action_trainset_id : Option String := none
  affected_trainsets : List String
  requires_human_approval : Bool
  execution_deadline : Option PyDateTime := none
  approved : Bool := false
  deriving DecidableEq, Repr

/-- `_evaluate_emergency_situations(trainsets, current_time)` (lines
245-283), threading the engine's `decision_counter`. -/
def evaluate_emergency_situations :
    List FleetRecord → PyDateTime → ℕ → List AIDecision × ℕ
  | [], _, counter => ([], counter)
  | t :: rest, current_time, counter =>
    match t.fitness_expiry_date with
    | some expiry =>
      let days_until_expiry := expiry - current_time.date
      if days_until_expiry ≤ 0 ∧ t.status ≠ "OUT_OF_ORDER" then
        let d : AIDecision :=
          { decision_id := "EMERGENCY_FITNESS_" ++ t.trainset_id ++ "_" ++ toString counter,
            decision_type := .EMERGENCY_RESPONSE, urgency := .CRITICAL,
            timestamp := current_time, confidence := 1,
            action := "emergency_deactivate",
            action_trainset_id := some t.trainset_id,
            affected_trainsets := [t.trainset_id],
            requires_human_approval := false,
            execution_deadline := some (current_time.addMinutes 5) }
        let r := evaluate_emergency_situations rest current_time (counter + 1)
        (d :: r.1, r.2)
      else evaluate_emergency_situations rest current_time counter
    | none => evaluate_emergency_situations rest current_time counter

/-- `_evaluate_resource_allocation(trainsets, current_time)` (lines
285-324): the 22:00 cleaning rotation. -/
def evaluate_resource_allocation (trainsets : List FleetRecord)
    (current_time : PyDateTime) (counter : ℕ) : List AIDecision × ℕ :=
  if current_time.hour = 22 ∧ current_time.minute < 10 then
    let available_trainsets := trainsets.filter (fun ts => ts.status == "AVAILABLE")
    if available_trainsets.length ≥ 6 then
      let cleaning_count := max 2 (available_trainsets.length / 4)
      let d : AIDecision :=
        { decision_id := "AUTO_CLEANING_" ++ toString counter,
          decision_type := .CLEANING_SCHEDULE, urgency := .MEDIUM,
          timestamp := current_time, confidence := 85/100,
          action := "schedule_cleaning",
          affected_trainsets :=
            (available_trainsets.take cleaning_count).map (·.trainset_id),
          requires_human_approval := false,
          execution_deadline := some (current_time.addMinutes 30) }
      ([d], counter + 1)
    else ([], counter)
  else ([], counter)

/-- `_is_decision_ready_for_execution(decision, current_time)` (lines
375-387). -/
def is_decision_ready_for_execution (d : AIDecision) (current_time : PyDateTime) :
    Bool :=
  if d.execution_deadline.any
      (fun dl => decide (dl.totalMinutes < current_time.totalMinutes)) then
    false
  else if d.requires_human_approval then d.approved
  else true

/-- One pass of `_execute_pending_decisions` (lines 344-373) over the
`active_decisions` dict: a ready decision is dispatched and removed from
the active set (removal happens whether the handler reports success or
failure); a non-ready decision is left in place untouched.  Returns the
remaining active set and the ids of the executed decisions. -/
def execute_pending_decisions (current_time : PyDateTime) :
    List (String × AIDecision) → List (String × AIDecision) × List String
  | [] => ([], [])
  | (did, d) :: rest =>
    let r := execute_pending_decisions current_time rest
    if is_decision_ready_for_execution d current_time then (r.1, did :: r.2)
    else ((did, d) :: r.1, r.2)

/-- Failing input for claim C7: nine available trainsets where the
least-recently-cleaned ones (A9, A8, A7) sit at the end of the fleet
list. -/
def c7FailingFleet : List FleetRecord :=
  [⟨"A1", "AVAILABLE", none, some 199⟩, ⟨"A2", "AVAILABLE", none, some 198⟩,
   ⟨"A3", "AVAILABLE", none, some 197⟩, ⟨"A4", "AVAILABLE", none, some 196⟩,
   ⟨"A5", "AVAILABLE", none, some 195⟩, ⟨"A6", "AVAILABLE", none, some 194⟩,
   ⟨"A7", "AVAILABLE", none, some 193⟩, ⟨"A8", "AVAILABLE", none, some 192⟩,
   ⟨"A9", "AVAILABLE", none, some 191⟩]

/-- Concrete decision for claim C6: auto-executable with deadline at
minute 0 of the epoch. -/
def c6StaleDecision : AIDecision :=
  { decision_id := "D1", decision_type := .EMERGENCY_RESPONSE,
    urgency := .CRITICAL, timestamp := ⟨0⟩, confidence := 1,
    action := "emergency_deactivate", affected_trainsets := ["TS001"],
    requires_human_approval := false, execution_deadline := some ⟨0⟩ }

/-! ## Exact driver: the CP-SAT model (`_solve_with_cp_sat`,
`engine.py` lines 104-222)

The solver's boolean variables are modelled as a valuation
`x : String → ℕ → Bool` of the variable grid `x[trainset_id][j]`
(duplicate ids share a variable row, as the Python dicts do).  The
model's linear constraints become predicates on `x`; the solver itself
is not modelled — any valuation satisfying the constraints stands for a
feasible solver answer, and an objective-maximizing one for an optimal
answer. -/

/-- Python `int()` (truncation towards zero) on a rational. -/
def ratTrunc (q : ℚ) : ℤ := q.num.tdiv (q.den : ℤ)

/-- The objective coefficient of variable `x[i][j]` built by the loop at
`engine.py` lines 153-176. -/
def cpCoeff (trainset : TrainsetData) (j : ℕ) : ℤ :=
  let base_score : ℤ := 100
  let base_score := if trainset.fitness_valid then base_score + 50 else base_score
  let mileage_bonus := max 0 (50 - ratTrunc (trainset.current_mileage / 1000))
  let base_score := base_score + mileage_bonus
  let branding_bonus := trainset.branding_priority * 10
  let base_score := base_score + branding_bonus
  let position_bonus : ℤ := max 0 (20 - (j : ℤ))
  base_score + position_bonus

/-- `objective_terms` as built by the double loop (lines 151-176): one
`(variable row, variable column, coefficient)` triple per (trainset,
position) pair, in loop order. -/
def cpObjectiveTerms (trainsets : List TrainsetData) (maxPos : ℕ) :
    List (String × ℕ × ℤ) :=
  trainsets.flatMap (fun t =>
    (List.range maxPos).map (fun j => (t.trainset_id, j, cpCoeff t j)))

/-- Value of the linear objective `sum(objective_terms)` at a 0/1
valuation of the variables. -/
def cpObjectiveValue (terms : List (String × ℕ × ℤ))
    (x : String → ℕ → Bool) : ℤ :=
  (terms.map (fun term => if x term.1 term.2.1 then term.2.2 else 0)).sum

/-- Per-row constraint (lines 127-130): each trainset sits in at most
one position. -/
def cpRowOk (trainsets : List TrainsetData) (maxPos : ℕ)
    (x : String → ℕ → Bool) : Prop :=
  ∀ t ∈ trainsets,
    ((List.range maxPos).filter (fun j => x t.trainset_id j)).length ≤ 1

/-- Per-column constraint (lines 133-136): each position holds at most
one trainset. -/
def cpColOk (trainsets : List TrainsetData) (maxPos : ℕ)
    (x : String → ℕ → Bool) : Prop :=
  ∀ j ∈ List.range maxPos,
    (trainsets.filter (fun t => x t.trainset_id j)).length ≤ 1

/-- Hard feasibility constraints (lines 138-148): an invalid fitness
certificate or an open high-priority job card forces the whole variable
row to 0. -/
def cpHardOk (trainsets : List TrainsetData) (maxPos : ℕ)
    (x : String → ℕ → Bool) : Prop :=
  ∀ t ∈ trainsets, (¬t.fitness_valid ∨ t.has_high_priority_jobs) →
    ∀ j < maxPos, x t.trainset_id j = false

/-- One step of solution extraction (lines 192-196): the first position
whose variable is set for this trainset, written into the assignments
dict. -/
def cpExtractStep (maxPos : ℕ) (x : String → ℕ → Bool)
    (assignments : Assignment) (t : TrainsetData) : Assignment :=
  match (List.range maxPos).find? (fun j => x t.trainset_id j) with
  | some j => dictInsert assignments t.trainset_id j
  | none => assignments

/-- Solution extraction over the whole fleet (lines 189-196). -/
def cpExtract (trainsets : List TrainsetData) (maxPos : ℕ)
    (x : String → ℕ → Bool) : Assignment :=
  trainsets.foldl (cpExtractStep maxPos x) []

/-- The closed form of the CP-SAT objective on the candidate assignment
`A`: each fleet trainset assigned (via `A`) to a position inside the
variable grid contributes its own coefficient. -/
def cpObjectiveClosedForm (trainsets : List TrainsetData) (maxPos : ℕ)
    (A : Assignment) : ℤ :=
  (trainsets.map (fun t =>
    match lookupPos A t.trainset_id with
    | some j => if j < maxPos then cpCoeff t j else 0
    | none => 0)).sum

/-- The 0/1 valuation of the variable grid induced by a candidate
assignment dict. -/
def indicatorOf (A : Assignment) : String → ℕ → Bool :=
  fun tid j => lookupPos A tid == some j

/-! ## Metaheuristic drivers: genetic algorithm and simulated annealing
(`_solve_with_genetic_algorithm` lines 224-326,
`_solve_with_simulated_annealing` lines 328-413)

Random draws are explicit parameters: a uniformly drawn element of a
non-empty list is `pickFrom l k` for an arbitrary `k`, and each
`np.random.random()` comparison is an arbitrary `Bool`. -/

/-- An arbitrary element of `l` (the draw `np.random.choice(l)`),
selected by the choice index `k`. -/
def pickFrom (l : List ℕ) (k : ℕ) : ℕ := l.getD (k % l.length) 0

/-- The random-individual construction shared verbatim by GA population
initialization (lines 240-252) and the SA initial solution (lines
336-346): walk the fleet; each fit, job-free trainset is, when its coin
says so and positions remain, placed on a randomly drawn still-free
position. -/
def randomInitAux : List TrainsetData → List (Bool × ℕ) → List ℕ →
    Assignment → Assignment
  | [], _, _, assignment => assignment
  | t :: rest, choices, available_positions, assignment =>
    let c := (choices.headD (false, 0)).1
    let k := (choices.headD (false, 0)).2
    if available_positions ≠ [] ∧ t.fitness_valid ∧ ¬t.has_high_priority_jobs ∧ c then
      let pos := pickFrom available_positions k
      randomInitAux rest choices.tail (available_positions.erase pos)
        (dictInsert assignment t.trainset_id pos)
    else randomInitAux rest choices.tail available_positions assignment

/-- A random individual over `available_positions = range maxPos`. -/
def randomInit (trainsets : List TrainsetData) (maxPos : ℕ)
    (choices : List (Bool × ℕ)) : Assignment :=
  randomInitAux trainsets choices (List.range maxPos) []

/-- GA crossover (lines 278-291): walk the union of the parents' keys
(in an arbitrary enumeration `order`); a coin picks parent 1 or
parent 2; the inherited position is dropped on conflict with an already
used one. -/
def crossoverAux (parent1 parent2 : Assignment) :
    List String → List Bool → List ℕ → Assignment
  | [], _, _ => []
  | trainset_id :: rest, coins, used_positions =>
    if (coins.headD false) ∧ (lookupPos parent1 trainset_id).isSome then
      match lookupPos parent1 trainset_id with
      | some pos =>
        if pos ∈ used_positions then
          crossoverAux parent1 parent2 rest coins.tail used_positions
        else
          (trainset_id, pos) ::
            crossoverAux parent1 parent2 rest coins.tail (pos :: used_positions)
      | none => crossoverAux parent1 parent2 rest coins.tail used_positions
    else
      match lookupPos parent2 trainset_id with
      | some pos =>
        if pos ∈ used_positions then
          crossoverAux parent1 parent2 rest coins.tail used_positions
        else
          (trainset_id, pos) ::
            crossoverAux parent1 parent2 rest coins.tail (pos :: used_positions)
      | none => crossoverAux parent1 parent2 rest coins.tail used_positions

/-- GA mutation (lines 294-302): reposition one randomly chosen child
key onto a randomly drawn position outside the used set (the used set
after crossover is exactly the multiset of child values). -/
def gaMutate (child : Assignment) (maxPos : ℕ) (pick_t pick_k : ℕ) :
    Assignment :=
  if child ≠ [] then
    let trainset_to_mutate := (keysOf child).getD (pick_t % child.length) ""
    let used_positions := valsOf child
    let available_pos :=
      (List.range maxPos).filter (fun p => decide (p ∉ used_positions))
    if available_pos ≠ [] then
      updateVal child trainset_to_mutate (pickFrom available_pos pick_k)
    else child
  else child

/-- SA `swap` neighbour (lines 371-377): exchange the positions of two
distinct keys (`np.random.choice(..., 2, replace=False)` never draws
the same key twice). -/
def saSwap (s : Assignment) (t1 t2 : String) : Assignment :=
  if t1 ≠ t2 then
    match lookupPos s t1, lookupPos s t2 with
    | some pos1, some pos2 => updateVal (updateVal s t1 pos2) t2 pos1
    | _, _ => s
  else s

/-- SA `move` neighbour (lines 379-387): move one randomly chosen key
to a randomly drawn different position that is free (or its own old
position, which the final draw excludes). -/
def saMove (s : Assignment) (maxPos : ℕ) (pick_t pick_k : ℕ) : Assignment :=
  if s ≠ [] then
    let trainset_to_move := (keysOf s).getD (pick_t % s.length) ""
    let old_pos := (lookupPos s trainset_to_move).getD 0
    let used_positions := valsOf s
    let available_pos := (List.range maxPos).filter
      (fun p => decide (p ∉ used_positions ∨ p = old_pos))
    if available_pos.length > 1 then
      let cands := available_pos.filter (fun p => decide (p ≠ old_pos))
      updateVal s trainset_to_move (pickFrom cands pick_k)
    else s
  else s

/-- Every assignment a genetic-algorithm run can hold in its population
(hence every assignment it can return as `best_solution`, and the empty
fallback): generation 0 consists of random individuals; later
generations consist of retained elites, crossover children and mutated
children, whose parents belong to earlier generations. -/
inductive gaReachable (trainsets : List TrainsetData) (maxPos : ℕ) :
    Assignment → Prop
  | empty : gaReachable trainsets maxPos []
  | init (choices : List (Bool × ℕ)) :
      gaReachable trainsets maxPos (randomInit trainsets maxPos choices)
  | cross (p1 p2 : Assignment) (order : List String) (coins : List Bool)
      (h1 : gaReachable trainsets maxPos p1)
      (h2 : gaReachable trainsets maxPos p2) (horder : order.Nodup) :
      gaReachable trainsets maxPos (crossoverAux p1 p2 order coins [])
  | mutate (child : Assignment) (pick_t pick_k : ℕ)
      (h : gaReachable trainsets maxPos child) :
      gaReachable trainsets maxPos (gaMutate child maxPos pick_t pick_k)

/-- Every assignment a simulated-annealing run can visit (hence its
returned `best_solution`): the random initial solution, and anything
obtained from a visited solution by a `swap` or `move` neighbour step
(the drawn `add`/`remove` modification types have no handler and leave
the solution unchanged). -/
inductive saReachable (trainsets : List TrainsetData) (maxPos : ℕ) :
    Assignment → Prop
  | init (choices : List (Bool × ℕ)) :
      saReachable trainsets maxPos (randomInit trainsets maxPos choices)
  | swap (s : Assignment) (t1 t2 : String)
      (h : saReachable trainsets maxPos s) :
      saReachable trainsets maxPos (saSwap s t1 t2)
  | move (s : Assignment) (pick_t pick_k : ℕ)
      (h : saReachable trainsets maxPos s) :
      saReachable trainsets maxPos (saMove s maxPos pick_t pick_k)

/-- A trainset passes the drivers' shared hard-feasibility checks. -/
def feasibleTrainset (t : TrainsetData) : Prop :=
  t.fitness_valid ∧ ¬t.has_high_priority_jobs

/-- The invariant claim C1 asserts of driver outputs — amended: the
assignment is injective (no two trainsets on one position) and every
assigned id belongs to a fleet trainset with a valid fitness
certificate and no open high-priority job card.  (The claim's
additional `status = available` conjunct is refuted separately.) -/
def injectiveAndFeasible (trainsets : List TrainsetData) (A : Assignment) :
    Prop :=
  (valsOf A).Nodup ∧
    ∀ p ∈ A, ∃ t ∈ trainsets, t.trainset_id = p.1 ∧ feasibleTrainset t

/-- Internal strengthening of `injectiveAndFeasible` maintained by all
driver operations. -/
def StrongInv (trainsets : List TrainsetData) (maxPos : ℕ) (A : Assignment) :
    Prop :=
  (keysOf A).Nodup ∧ (valsOf A).Nodup ∧ (∀ p ∈ A, p.2 < maxPos) ∧
    ∀ p ∈ A, ∃ t ∈ trainsets, t.trainset_id = p.1 ∧ feasibleTrainset t

/-! ## Concrete fleets for claims C1, C3, C4 -/

/-- Fleet for the C1 counterexample: fit, job-free, but in maintenance
(not `AVAILABLE`). -/
def c1MaintTrainset : TrainsetData :=
  ⟨"TM", "MAINTENANCE", true, false, 0, 1⟩

/-- Fleet for the C3 counterexample. -/
def c3Trainset : TrainsetData := ⟨"T1", "AVAILABLE", true, false, 0, 1⟩

/-- Fleet of scenario C4: three available trainsets, identical mileage
50000, branding priority 1, valid fitness, no high-priority jobs. -/
def c4Fleet : List TrainsetData :=
  [⟨"TS1", "AVAILABLE", true, false, 50000, 1⟩,
   ⟨"TS2", "AVAILABLE", true, false, 50000, 1⟩,
   ⟨"TS3", "AVAILABLE", true, false, 50000, 1⟩]

/-- A CP-SAT candidate solution for the C4 instance (3 trainsets,
3 positions): row `i` of the variable grid has at most one set entry,
so a row is exactly an `Option (Fin 3)`; `c4x` turns the three rows
back into the boolean variable grid. -/
def c4x (σ : Fin 3 → Option (Fin 3)) : String → ℕ → Bool := fun tid j =>
  if tid = "TS1" then (σ 0).map Fin.val == some j
  else if tid = "TS2" then (σ 1).map Fin.val == some j
  else if tid = "TS3" then (σ 2).map Fin.val == some j
  else false

/-- Column constraint of the C4 instance over row form: two distinct
trainsets never share a position. -/
def c4ColOk (σ : Fin 3 → Option (Fin 3)) : Prop :=
  ∀ i i' : Fin 3, i ≠ i' → σ i = σ i' → σ i = none

/-- The objective coefficients of the C4 instance, fully evaluated
(mileage bonus `max(0, 50 − 50000/1000) = 0`; per pair
`100 + 50 + 0 + 10 + max(0, 20 − j)`). -/
def c4TermsLit : List (String × ℕ × ℤ) :=
  [("TS1", 0, 180), ("TS1", 1, 179), ("TS1", 2, 178),
   ("TS2", 0, 180), ("TS2", 1, 179), ("TS2", 2, 178),
   ("TS3", 0, 180), ("TS3", 1, 179), ("TS3", 2, 178)]

/-- Decidability of the C4 column constraint. -/
instance (σ : Fin 3 → Option (Fin 3)) : Decidable (c4ColOk σ) :=
  inferInstanceAs (Decidable (∀ i i' : Fin 3, i ≠ i' → σ i = σ i' → σ i = none))

/-- The six total injective assignments of the C4 instance. -/
def c4Perms : List Assignment :=
  [[("TS1", 0), ("TS2", 1), ("TS3", 2)], [("TS1", 0), ("TS2", 2), ("TS3", 1)],
   [("TS1", 1), ("TS2", 0), ("TS3", 2)], [("TS1", 1), ("TS2", 2), ("TS3", 0)],
   [("TS1", 2), ("TS2", 0), ("TS3", 1)], [("TS1", 2), ("TS2", 1), ("TS3", 0)]]

/-! ## Claim C2: the shared scoring formula -/

/-- The per-pair contribution exactly as claim C2 states it (base 100;
+50 valid fitness / −1000 invalid; mileage-balance term × 0.6;
branding × 20 × 0.3; position term).  Note: no job-card term. -/
def c2ClaimPairContribution (fleetMean : ℚ) (t : TrainsetData) (pos : ℕ) : ℚ :=
  100 + (if t.fitness_valid then 50 else -1000)
    + max 0 (100 - |t.current_mileage - fleetMean| / 1000) * mileage_balance_weight
    + ((t.branding_priority : ℚ) * 20) * branding_priority_weight
    + max 0 (50 - 2 * (pos : ℚ))

/-- The per-pair contribution as claim C2 must be amended: the code
additionally subtracts 500 when the trainset has an open high-priority
job card (`engine.py` lines 440-441). -/
def c2AmendedPairContribution (fleetMean : ℚ) (t : TrainsetData) (pos : ℕ) : ℚ :=
  100 + (if t.fitness_valid then 50 else -1000)
    + (if t.has_high_priority_jobs then -500 else 0)
    + max 0 (100 - |t.current_mileage - fleetMean| / 1000) * mileage_balance_weight
    + ((t.branding_priority : ℚ) * 20) * branding_priority_weight
    + max 0 (50 - 2 * (pos : ℚ))

/-- The assigned pairs of `A` that resolve in the fleet snapshot,
decorated with their trainset records. -/
def resolvedPairs (A : Assignment) (trainsets : List TrainsetData) :
    List (TrainsetData × ℕ) :=
  A.filterMap (fun p => (trainsetDict trainsets p.1).map (fun t => (t, p.2)))

/-- Contribution of a single dict entry to `_calculate_solution_score`
(0 when the id does not resolve in the snapshot). -/
def scorePairContrib (trainsets : List TrainsetData) (p : String × ℕ) : ℚ :=
  match trainsetDict trainsets p.1 with
  | none => 0
  | some t => pairScoreCode trainsets t p.2

/-! ## Dictionary and list helper lemmas -/

theorem keysOf_updateVal (A : Assignment) (k : String) (v : ℕ) :
    keysOf (updateVal A k v) = keysOf A := by
  unfold keysOf updateVal
  rw [List.map_map]
  apply List.map_congr_left
  intro p _
  dsimp only [Function.comp]
  split <;> rfl

theorem mem_updateVal {A : Assignment} {k : String} {v : ℕ} {p : String × ℕ}
    (h : p ∈ updateVal A k v) : p ∈ A ∨ p = (k, v) := by
  unfold updateVal at h
  rcases List.mem_map.mp h with ⟨q, hq, hmap⟩
  by_cases hqk : q.1 == k
  · right
    rw [if_pos hqk] at hmap
    rw [← hmap]
    simp only [beq_iff_eq] at hqk
    rw [hqk]
  · left
    rw [if_neg hqk] at hmap
    exact hmap ▸ hq

theorem updateVal_of_not_mem_keys (A : Assignment) (k : String) (v : ℕ)
    (h : k ∉ keysOf A) : updateVal A k v = A := by
  unfold updateVal
  conv_rhs => rw [← List.map_id A]
  apply List.map_congr_left
  intro p hp
  have hne : (p.1 == k) = false := by
    simp only [beq_eq_false_iff_ne, ne_eq]
    intro hk
    exact h (hk ▸ List.mem_map_of_mem Prod.fst hp)
  dsimp only [id_eq]
  rw [hne]
  simp

theorem lookupPos_eq_of_mem {A : Assignment} {p : String × ℕ}
    (hkeys : (keysOf A).Nodup) (hp : p ∈ A) : lookupPos A p.1 = some p.2 := by
  induction A with
  | nil => cases hp
  | cons q rest ih =>
    rcases List.mem_cons.mp hp with rfl | hp'
    · simp [lookupPos, List.find?]
    · have hq : ¬(q.1 == p.1) := by
        simp only [beq_iff_eq]
        intro hk
        exact (List.nodup_cons.mp hkeys).1
          (hk ▸ List.mem_map_of_mem Prod.fst hp')
      simp only [lookupPos, List.find?, hq]
      exact ih (List.nodup_cons.mp hkeys).2 hp'

theorem mem_of_lookupPos {A : Assignment} {k : String} {v : ℕ}
    (h : lookupPos A k = some v) : (k, v) ∈ A := by
  unfold lookupPos at h
  rcases hf : A.find? (fun p => p.1 == k) with _ | q
  · rw [hf] at h; cases h
  · rw [hf] at h
    have hq := List.find?_some hf
    have hqmem := List.mem_of_find?_eq_some hf
    simp only [beq_iff_eq] at hq
    dsimp only [Option.map] at h
    cases h
    have hqe : q = (k, q.2) := by
      rw [← hq]
    exact hqe ▸ hqmem

theorem updateVal_mem_self {A : Assignment} {k : String} {v : ℕ}
    (hkeys : (keysOf A).Nodup) (hmem : (k, v) ∈ A) : updateVal A k v = A := by
  unfold updateVal
  conv_rhs => rw [← List.map_id A]
  apply List.map_congr_left
  intro p hp
  by_cases hpk : p.1 == k
  · have heq : p.1 = k := by simpa using hpk
    have h1 : lookupPos A p.1 = some p.2 := lookupPos_eq_of_mem hkeys hp
    have h2 : lookupPos A k = some v := lookupPos_eq_of_mem hkeys hmem
    rw [heq] at h1
    rw [h1] at h2
    have hv : v = p.2 := (Option.some.inj h2).symm
    rw [if_pos hpk, hv]
    simp
  · simp [hpk]

theorem valsOf_updateVal_nodup (A : Assignment) (k : String) (v : ℕ)
    (hkeys : (keysOf A).Nodup) (hvals : (valsOf A).Nodup)
    (hv : v ∉ valsOf A) : (valsOf (updateVal A k v)).Nodup := by
  induction A with
  | nil => simp [updateVal, valsOf]
  | cons p rest ih =>
    have hk1 : p.1 ∉ keysOf rest := (List.nodup_cons.mp hkeys).1
    have hk2 : (keysOf rest).Nodup := (List.nodup_cons.mp hkeys).2
    have hv1 : p.2 ∉ valsOf rest := (List.nodup_cons.mp hvals).1
    have hv2 : (valsOf rest).Nodup := (List.nodup_cons.mp hvals).2
    have hvp : v ≠ p.2 ∧ v ∉ valsOf rest := by
      constructor
      · intro he; exact hv (he ▸ List.mem_cons_self _ _)
      · intro he; exact hv (List.mem_cons_of_mem _ he)
    show (valsOf ((if p.1 == k then (p.1, v) else p) :: updateVal rest k v)).Nodup
    by_cases hpk : p.1 == k
    · have heq : p.1 = k := by simpa using hpk
      have hrest : updateVal rest k v = rest :=
        updateVal_of_not_mem_keys rest k v (heq ▸ hk1)
      rw [if_pos hpk, hrest]
      simp only [valsOf, List.map_cons, List.nodup_cons]
      exact ⟨hvp.2, hv2⟩
    · rw [if_neg hpk]
      simp only [valsOf, List.map_cons, List.nodup_cons]
      refine ⟨?_, ih hk2 hv2 hvp.2⟩
      intro hmem
      rcases List.mem_map.mp hmem with ⟨q, hq, hq2⟩
      rcases mem_updateVal hq with hq' | hq'
      · exact hv1 (hq2 ▸ List.mem_map_of_mem Prod.snd hq')
      · exact hvp.1 (by rw [hq'] at hq2; exact hq2)

theorem mem_dictInsert {A : Assignment} {k : String} {v : ℕ} {p : String × ℕ}
    (h : p ∈ dictInsert A k v) : p ∈ A ∨ p = (k, v) := by
  unfold dictInsert at h
  by_cases hc : (keysOf A).contains k
  · rw [if_pos hc] at h
    exact mem_updateVal h
  · rw [if_neg hc] at h
    rcases List.mem_append.mp h with h' | h'
    · exact Or.inl h'
    · right; simpa using h'

theorem keysOf_dictInsert_nodup {A : Assignment} {k : String} {v : ℕ}
    (hkeys : (keysOf A).Nodup) : (keysOf (dictInsert A k v)).Nodup := by
  unfold dictInsert
  by_cases hc : (keysOf A).contains k
  · rw [if_pos hc]
    exact keysOf_updateVal A k v ▸ hkeys
  · rw [if_neg hc]
    have hk : k ∉ keysOf A := by simpa using hc
    unfold keysOf at hk hkeys ⊢
    rw [List.map_append]
    simp [List.nodup_append, hkeys, hk]

theorem valsOf_dictInsert_nodup {A : Assignment} {k : String} {v : ℕ}
    (hkeys : (keysOf A).Nodup) (hvals : (valsOf A).Nodup)
    (hv : v ∉ valsOf A) : (valsOf (dictInsert A k v)).Nodup := by
  unfold dictInsert
  by_cases hc : (keysOf A).contains k
  · rw [if_pos hc]
    exact valsOf_updateVal_nodup A k v hkeys hvals hv
  · rw [if_neg hc]
    unfold valsOf at hv hvals ⊢
    rw [List.map_append]
    simp [List.nodup_append, hvals, hv]

theorem pickFrom_mem (l : List ℕ) (k : ℕ) (h : l ≠ []) : pickFrom l k ∈ l := by
  unfold pickFrom
  have hlen : 0 < l.length := List.length_pos.mpr h
  have hk : k % l.length < l.length := Nat.mod_lt _ hlen
  rw [List.getD_eq_getElem l 0 hk]
  exact List.getElem_mem hk

theorem two_le_length_filter {α : Type} {l : List α} {p : α → Bool} {a b : α}
    (hab : a ≠ b) (ha : a ∈ l) (hb : b ∈ l) (hpa : p a = true)
    (hpb : p b = true) : 2 ≤ (l.filter p).length := by
  have hsub : [a, b] ⊆ l.filter p := by
    intro x hx
    rcases List.mem_cons.mp hx with rfl | hx
    · exact List.mem_filter.mpr ⟨ha, hpa⟩
    · rcases List.mem_cons.mp hx with rfl | hx
      · exact List.mem_filter.mpr ⟨hb, hpb⟩
      · cases hx
  have hnd : ([a, b] : List α).Nodup := by simp [hab]
  simpa using (List.subperm_of_subset hnd hsub).length_le

theorem exists_val_of_mem_keys {A : Assignment} {k : String}
    (h : k ∈ keysOf A) : ∃ v, (k, v) ∈ A := by
  rcases List.mem_map.mp h with ⟨p, hp, hk⟩
  exact ⟨p.2, by rw [← hk]; exact hp⟩

theorem calculate_solution_score_eq_sum (A : Assignment)
    (trainsets : List TrainsetData) :
    calculate_solution_score A trainsets =
      (A.map (scorePairContrib trainsets)).sum := by
  suffices h : ∀ (c : ℚ),
      A.foldl
        (fun total_score p =>
          match trainsetDict trainsets p.1 with
          | none => total_score
          | some trainset => total_score + pairScoreCode trainsets trainset p.2)
        c = c + (A.map (scorePairContrib trainsets)).sum by
    simpa [calculate_solution_score] using h 0
  induction A with
  | nil => intro c; simp
  | cons p rest ih =>
    intro c
    rcases hp : trainsetDict trainsets p.1 with _ | t <;>
      simp [List.foldl_cons, hp, ih, scorePairContrib] <;> ring

theorem pairScoreCode_eq_amended (trainsets : List TrainsetData)
    (t : TrainsetData) (pos : ℕ) :
    pairScoreCode trainsets t pos =
      c2AmendedPairContribution (avgMileage trainsets) t pos := by
  unfold pairScoreCode c2AmendedPairContribution
  rcases t.fitness_valid with _ | _ <;>
    rcases hj : t.has_high_priority_jobs with _ | _ <;> simp [hj] <;> ring

/-- C2 (corrected), counterexample: on a fleet whose single trainset has
an open high-priority job card, the code's score differs from the
formula the claim states (the code also subtracts 500 for the job
card). -/
theorem c2_claim_counterexample :
    calculate_solution_score [("T1", 0)]
        [⟨"T1", "AVAILABLE", true, true, 50000, 1⟩] ≠
      ((resolvedPairs [("T1", 0)] [⟨"T1", "AVAILABLE", true, true, 50000, 1⟩]).map
        (fun q => c2ClaimPairContribution
          (avgMileage [⟨"T1", "AVAILABLE", true, true, 50000, 1⟩]) q.1 q.2)).sum := by
  norm_num [calculate_solution_score, resolvedPairs, trainsetDict, pairScoreCode,
    avgMileage, c2ClaimPairContribution, mileage_balance_weight,
    branding_priority_weight, List.find?, List.filterMap]

/-- C2 (amended): for every fleet snapshot and every assignment, the
shared scoring function returns exactly the sum, over assigned pairs
that resolve in the snapshot, of: base 100; +50 for a valid fitness
certificate and −1000 otherwise; −500 when the trainset has an open
high-priority job card; the mileage-balance term times weight 0.6; the
branding term times weight 0.3; and the position-preference term. -/
theorem c2_score_formula (A : Assignment) (trainsets : List TrainsetData) :
    calculate_solution_score A trainsets =
      ((resolvedPairs A trainsets).map
        (fun q => c2AmendedPairContribution (avgMileage trainsets) q.1 q.2)).sum := by
  rw [calculate_solution_score_eq_sum]
  induction A with
  | nil => simp [resolvedPairs]
  | cons p rest ih =>
    rcases hp : trainsetDict trainsets p.1 with _ | t
    · simpa [resolvedPairs, List.filterMap_cons, hp, scorePairContrib] using ih
    · simp only [resolvedPairs, List.filterMap_cons, hp, Option.map_some,
        List.map_cons, List.sum_cons, List.map_map, scorePairContrib] at ih ⊢
      rw [pairScoreCode_eq_amended, ih]; simp

/-! ## Claims C8, C9, C10 -/

/-- C8 (confirmed): invoked with an empty trainset list, a
non-positive `max_trainsets`, or `max_trainsets` above the configured
stabling-position ceiling, `optimize_schedule` fails synchronously: the
caller gets a raised exception carrying the validation error message as
its chained context, never a returned result. -/
theorem c8_validation_fails_synchronously (request : OptimizationRequest)
    (trainsets : List TrainsetData)
    (solve : String → List TrainsetData → Except String OptimizationSolution)
    (h : trainsets = [] ∨ request.max_trainsets ≤ 0 ∨
      request.max_trainsets > MAX_STABLING_POSITIONS) :
    ∃ msg, validate_input request trainsets = .error msg ∧
      optimize_schedule request trainsets solve =
        .raised ⟨"UnboundLocalError", some msg⟩ := by
  have hv : ∃ msg, validate_input request trainsets = .error msg := by
    unfold validate_input
    rcases h with h | h | h
    · simp [h]
    · by_cases he : trainsets.isEmpty <;> simp [he, h]
    · by_cases he : trainsets.isEmpty
      · simp [he]
      · by_cases hle : request.max_trainsets ≤ 0 <;> simp [he, hle, h]
  obtain ⟨msg, hmsg⟩ := hv
  refine ⟨msg, hmsg, ?_⟩
  unfold optimize_schedule
  rw [hmsg]

/-- Witness for C8 at a concrete invalid input (`max_trainsets = 0`). -/
theorem c8_validation_fails_synchronously_witness :
    ∃ msg,
      validate_input ⟨"opt-1", none, 0⟩ [⟨"T1", "AVAILABLE", true, false, 100, 1⟩] =
        .error msg ∧
      optimize_schedule ⟨"opt-1", none, 0⟩ [⟨"T1", "AVAILABLE", true, false, 100, 1⟩]
          (fun _ _ => .ok ⟨[], 0⟩) =
        .raised ⟨"UnboundLocalError", some msg⟩ :=
  c8_validation_fails_synchronously ⟨"opt-1", none, 0⟩
    [⟨"T1", "AVAILABLE", true, false, 100, 1⟩] (fun _ _ => .ok ⟨[], 0⟩)
    (Or.inr (Or.inl (by decide)))

/-- C9 (confirmed): starting from the constructor thresholds
(0.75, 0.85), after any sequence of adaptive-learning ticks the
thresholds satisfy 0.70 ≤ confidence_threshold ≤ 0.85 and
0.80 ≤ auto_execution_threshold ≤ 0.95. -/
theorem c9_threshold_bounds (ticks : List (List (Option ℚ))) :
    thresholdsInBounds
      (ticks.foldl (fun s hist => optimize_scheduling_parameters hist s)
        initialThresholds) := by
  have step : ∀ (hist : List (Option ℚ)) (s : SchedulerThresholds),
      thresholdsInBounds s →
        thresholdsInBounds (optimize_scheduling_parameters hist s) := by
    intro hist s hs
    obtain ⟨h1, h2, h3, h4⟩ := hs
    unfold optimize_scheduling_parameters thresholdsInBounds
    dsimp only
    split_ifs
    · exact ⟨h1, h2, h3, h4⟩
    · exact ⟨le_max_left _ _, max_le (by norm_num) (by linarith),
        le_max_left _ _, max_le (by norm_num) (by linarith)⟩
    · exact ⟨le_min (by norm_num) (by linarith), min_le_left _ _,
        le_min (by norm_num) (by linarith), min_le_left _ _⟩
    · exact ⟨h1, h2, h3, h4⟩
  have general : ∀ (l : List (List (Option ℚ))) (s : SchedulerThresholds),
      thresholdsInBounds s →
        thresholdsInBounds
          (l.foldl (fun s hist => optimize_scheduling_parameters hist s) s) := by
    intro l
    induction l with
    | nil => intro s hs; exact hs
    | cons hist rest ih => intro s hs; exact ih _ (step hist s hs)
  exact general ticks initialThresholds (by unfold thresholdsInBounds initialThresholds; norm_num)

/-- C10 (confirmed): whenever `optimize_schedule` returns a result (as
opposed to raising), its status is `"completed"` exactly when its score
is strictly positive; in particular an empty-assignment solution with
score 0 is reported `"failed"`. -/
theorem c10_completed_iff_positive_score (request : OptimizationRequest)
    (trainsets : List TrainsetData)
    (solve : String → List TrainsetData → Except String OptimizationSolution)
    (r : OptimizationResult)
    (h : optimize_schedule request trainsets solve = .result r) :
    r.status = "completed" ↔ r.score > 0 := by
  unfold optimize_schedule at h
  rcases hv : validate_input request trainsets with msg | u
  · rw [hv] at h
    simp at h
  · rw [hv] at h
    dsimp only at h
    rcases hs : solve (pyOrString request.algorithm "constraint_programming") trainsets
      with e | sol
    · rw [hs] at h
      dsimp only at h
      injection h with h'
      subst h'
      simp
    · rw [hs] at h
      dsimp only at h
      injection h with h'
      subst h'
      by_cases hpos : sol.score > 0 <;> simp [hpos]

/-- Witness for C10: a run whose best solution is the empty assignment
(score 0) is reported with status `"failed"`. -/
theorem c10_completed_iff_positive_score_witness :
    ("failed" = "completed" ↔ (0 : ℚ) > 0) :=
  c10_completed_iff_positive_score ⟨"opt-2", none, 5⟩
    [⟨"T1", "AVAILABLE", true, false, 100, 1⟩]
    (fun _ _ => .ok ⟨[], calculate_solution_score [] []⟩)
    { optimization_id := "opt-2", algorithm := "constraint_programming",
      score := 0, trainset_assignments := [], status := "failed" }
    (by decide)

/-! ## Claims C5, C6, C7 -/

/-- C5 (confirmed): for every trainset in the snapshot whose
fitness-expiry date is on or before the evaluation day and whose status
is not out-of-order, one evaluator pass of
`_evaluate_emergency_situations` emits a decision of type
emergency-response with urgency critical, confidence 1.0, no
human-approval requirement, affected trainsets exactly that trainset,
and execution deadline the evaluation time plus 5 minutes. -/
theorem c5_emergency_decision (trainsets : List FleetRecord) (now : PyDateTime)
    (counter : ℕ) (t : FleetRecord) (ht : t ∈ trainsets) (e : ℤ)
    (he : t.fitness_expiry_date = some e) (hexp : e ≤ now.date)
    (hst : t.status ≠ "OUT_OF_ORDER") :
    ∃ d ∈ (evaluate_emergency_situations trainsets now counter).1,
      d.decision_type = .EMERGENCY_RESPONSE ∧ d.urgency = .CRITICAL ∧
        d.confidence = 1 ∧ d.requires_human_approval = false ∧
        d.affected_trainsets = [t.trainset_id] ∧
        d.execution_deadline = some (now.addMinutes 5) := by
  induction trainsets generalizing counter with
  | nil => cases ht
  | cons hd rest ih =>
    rcases List.mem_cons.mp ht with rfl | hmem
    · unfold evaluate_emergency_situations
      rw [he]
      dsimp only
      rw [if_pos ⟨by omega, hst⟩]
      exact ⟨_, List.mem_cons_self _ _, rfl, rfl, rfl, rfl, rfl, rfl⟩
    · unfold evaluate_emergency_situations
      rcases hfe : hd.fitness_expiry_date with _ | expiry
      · dsimp only
        exact ih counter hmem
      · dsimp only
        by_cases hcond : expiry - now.date ≤ 0 ∧ hd.status ≠ "OUT_OF_ORDER"
        · rw [if_pos hcond]
          obtain ⟨d, hdmem, hp⟩ := ih (counter + 1) hmem
          exact ⟨d, List.mem_cons_of_mem _ hdmem, hp⟩
        · rw [if_neg hcond]
          exact ih counter hmem

/-- Witness for C5: two-trainset fleet, TS001 expired yesterday while
still available, evaluated at day 1, 12:00. -/
theorem c5_emergency_decision_witness :
    ∃ d ∈ (evaluate_emergency_situations
        [⟨"TS001", "AVAILABLE", some 0, none⟩, ⟨"TS002", "AVAILABLE", some 100, none⟩]
        ⟨2160⟩ 0).1,
      d.decision_type = .EMERGENCY_RESPONSE ∧ d.urgency = .CRITICAL ∧
        d.confidence = 1 ∧ d.requires_human_approval = false ∧
        d.affected_trainsets = ["TS001"] ∧
        d.execution_deadline = some (PyDateTime.addMinutes ⟨2160⟩ 5) :=
  c5_emergency_decision
    [⟨"TS001", "AVAILABLE", some 0, none⟩, ⟨"TS002", "AVAILABLE", some 100, none⟩]
    ⟨2160⟩ 0 ⟨"TS001", "AVAILABLE", some 0, none⟩ (by decide) 0 rfl (by decide)
    (by decide)

/-- C6 (corrected), counterexample: a decision whose 5-minute deadline
sits at minute 0 is past deadline at minute 10, yet one executor pass
leaves it in the active-decisions set (the code has no drop path) and
does not execute it. -/
theorem c6_claim_counterexample :
    (0 : ℤ) < 10 ∧
      ("D1", c6StaleDecision) ∈
        (execute_pending_decisions ⟨10⟩ [("D1", c6StaleDecision)]).1 ∧
      (execute_pending_decisions ⟨10⟩ [("D1", c6StaleDecision)]).2 = [] := by
  decide

theorem execute_pending_decisions_exec_subset (now : PyDateTime)
    (active : List (String × AIDecision)) :
    (execute_pending_decisions now active).2 ⊆ active.map Prod.fst := by
  induction active with
  | nil => simp [execute_pending_decisions]
  | cons p rest ih =>
    obtain ⟨pid, pd⟩ := p
    unfold execute_pending_decisions
    dsimp only
    by_cases hr : is_decision_ready_for_execution pd now
    · rw [if_pos hr]
      intro x hx
      rcases List.mem_cons.mp hx with rfl | hx
      · exact List.mem_cons_self _ _
      · exact List.mem_cons_of_mem _ (ih hx)
    · rw [if_neg hr]
      intro x hx
      exact List.mem_cons_of_mem _ (ih hx)

/-- C6 (amended): an active decision whose execution deadline has
passed is never executed by an executor pass, and it *remains* in the
active-decisions set afterwards (the executor has no drop path for
past-deadline decisions). -/
theorem c6_past_deadline_kept_unexecuted (now : PyDateTime)
    (active : List (String × AIDecision)) (did : String) (d : AIDecision)
    (hkeys : (active.map Prod.fst).Nodup)
    (hmem : (did, d) ∈ active) (dl : PyDateTime)
    (hdl : d.execution_deadline = some dl)
    (hpast : dl.totalMinutes < now.totalMinutes) :
    did ∉ (execute_pending_decisions now active).2 ∧
      (did, d) ∈ (execute_pending_decisions now active).1 := by
  have hready : is_decision_ready_for_execution d now = false := by
    unfold is_decision_ready_for_execution
    rw [hdl]
    simp [hpast]
  induction active with
  | nil => cases hmem
  | cons p rest ih =>
    obtain ⟨pid, pd⟩ := p
    have hkeys' : (rest.map Prod.fst).Nodup := hkeys.of_cons
    rcases List.mem_cons.mp hmem with heq | hmem'
    · injection heq with h1 h2
      subst h1; subst h2
      unfold execute_pending_decisions
      dsimp only
      rw [if_neg (by simp [hready])]
      refine ⟨?_, List.mem_cons_self _ _⟩
      intro hx
      exact absurd (execute_pending_decisions_exec_subset now rest hx)
        (List.nodup_cons.mp hkeys).1
    · obtain ⟨hnot, hin⟩ := ih hkeys' hmem'
      unfold execute_pending_decisions
      dsimp only
      by_cases hr : is_decision_ready_for_execution pd now
      · rw [if_pos hr]
        refine ⟨?_, hin⟩
        intro hx
        rcases List.mem_cons.mp hx with rfl | hx
        · exact absurd (List.mem_map_of_mem Prod.fst hmem')
            (List.nodup_cons.mp hkeys).1
        · exact hnot hx
      · rw [if_neg hr]
        exact ⟨hnot, List.mem_cons_of_mem _ hin⟩

/-- Witness for the amended C6 at a concrete stale decision. -/
theorem c6_past_deadline_kept_unexecuted_witness :
    "D1" ∉ (execute_pending_decisions ⟨10⟩ [("D1", c6StaleDecision)]).2 ∧
      ("D1", c6StaleDecision) ∈
        (execute_pending_decisions ⟨10⟩ [("D1", c6StaleDecision)]).1 :=
  c6_past_deadline_kept_unexecuted ⟨10⟩ [("D1", c6StaleDecision)] "D1"
    c6StaleDecision (by decide) (by decide) ⟨0⟩ rfl (by decide)

/-- C7 (code bug), evaluation of the code at the failing input: at
22:05 with nine available trainsets, `_evaluate_resource_allocation`
emits one cleaning decision affecting the *first two* trainsets in
fleet-list order (`max(2, 9 // 4) = 2`, sliced by insertion order),
not the ⌈9/4⌉ = 3 least-recently-cleaned ones the specification
mandates. -/
theorem c7_code_behavior :
    ((evaluate_resource_allocation c7FailingFleet ⟨1325⟩ 0).1.map
        (fun d => (d.decision_type, d.urgency, d.affected_trainsets,
          d.requires_human_approval, d.execution_deadline))) =
      [(DecisionType.CLEANING_SCHEDULE, DecisionUrgency.MEDIUM, ["A1", "A2"],
        false, some (PyDateTime.addMinutes ⟨1325⟩ 30))] := by
  decide

/-! ## Invariant preservation by the metaheuristic operations -/

theorem randomInitAux_inv (ts0 : List TrainsetData) (maxPos : ℕ) :
    ∀ (todo : List TrainsetData) (choices : List (Bool × ℕ)) (avail : List ℕ)
      (A : Assignment),
      (∀ t ∈ todo, t ∈ ts0) →
      (keysOf A).Nodup → (valsOf A).Nodup →
      (∀ v ∈ valsOf A, v ∉ avail) → avail.Nodup → (∀ v ∈ avail, v < maxPos) →
      (∀ p ∈ A, p.2 < maxPos) →
      (∀ p ∈ A, ∃ t ∈ ts0, t.trainset_id = p.1 ∧ feasibleTrainset t) →
      StrongInv ts0 maxPos (randomInitAux todo choices avail A) := by
  intro todo
  induction todo with
  | nil =>
    intro choices avail A _ h1 h2 _ _ _ h3 h4
    exact ⟨h1, h2, h3, h4⟩
  | cons t rest ih =>
    intro choices avail A hsub h1 h2 hdisj hnd hlt h3 h4
    unfold randomInitAux
    dsimp only
    split_ifs with hc
    · obtain ⟨hne, hfit, hjobs, -⟩ := hc
      have hposmem : pickFrom avail ((choices.headD (false, 0)).2) ∈ avail :=
        pickFrom_mem _ _ hne
      apply ih
      · intro u hu; exact hsub u (List.mem_cons_of_mem _ hu)
      · exact keysOf_dictInsert_nodup h1
      · exact valsOf_dictInsert_nodup h1 h2
          (fun hmem => hdisj _ hmem hposmem)
      · intro v hv hverase
        have hvav : v ∈ avail := List.mem_of_mem_erase hverase
        rcases List.mem_map.mp hv with ⟨p, hp, rfl⟩
        rcases mem_dictInsert hp with hp' | hp'
        · exact hdisj _ (List.mem_map_of_mem Prod.snd hp') hvav
        · rw [hp'] at hverase
          exact ((hnd.mem_erase_iff).mp hverase).1 rfl
      · exact hnd.erase _
      · intro v hv; exact hlt v (List.mem_of_mem_erase hv)
      · intro p hp
        rcases mem_dictInsert hp with hp' | hp'
        · exact h3 p hp'
        · rw [hp']; exact hlt _ hposmem
      · intro p hp
        rcases mem_dictInsert hp with hp' | hp'
        · exact h4 p hp'
        · rw [hp']
          exact ⟨t, hsub t (List.mem_cons_self _ _), rfl, hfit, hjobs⟩
    · exact ih choices.tail avail A
        (fun u hu => hsub u (List.mem_cons_of_mem _ hu)) h1 h2 hdisj hnd hlt h3 h4

theorem randomInit_inv (ts0 : List TrainsetData) (maxPos : ℕ)
    (choices : List (Bool × ℕ)) :
    StrongInv ts0 maxPos (randomInit ts0 maxPos choices) := by
  apply randomInitAux_inv ts0 maxPos ts0 choices (List.range maxPos) []
  · intro t ht; exact ht
  · simp [keysOf]
  · simp [valsOf]
  · simp [valsOf]
  · exact List.nodup_range _
  · intro v hv; exact List.mem_range.mp hv
  · simp
  · simp

theorem updateVal_strongInv (ts0 : List TrainsetData) (maxPos : ℕ)
    (A : Assignment) (k : String) (v : ℕ) (h : StrongInv ts0 maxPos A)
    (hv : v ∉ valsOf A) (hlt : v < maxPos) (hkmem : k ∈ keysOf A) :
    StrongInv ts0 maxPos (updateVal A k v) := by
  obtain ⟨hk, hvals, hb, hf⟩ := h
  obtain ⟨v0, hv0⟩ := exists_val_of_mem_keys hkmem
  obtain ⟨t0, ht0, ht0id, ht0feas⟩ := hf (k, v0) hv0
  refine ⟨?_, ?_, ?_, ?_⟩
  · rw [keysOf_updateVal]; exact hk
  · exact valsOf_updateVal_nodup A k v hk hvals hv
  · intro p hp
    rcases mem_updateVal hp with hp' | hp'
    · exact hb p hp'
    · rw [hp']; exact hlt
  · intro p hp
    rcases mem_updateVal hp with hp' | hp'
    · exact hf p hp'
    · rw [hp']; exact ⟨t0, ht0, ht0id, ht0feas⟩

theorem length_le_one_of_forall_eq {l : List ℕ} {a : ℕ} (hnd : l.Nodup)
    (h : ∀ x ∈ l, x = a) : l.length ≤ 1 := by
  match l with
  | [] => simp
  | [x] => simp
  | x :: y :: rest =>
    exfalso
    have hx := h x (by simp)
    have hy := h y (by simp)
    have hxy : x ≠ y := by
      intro he
      exact (List.nodup_cons.mp hnd).1 (he ▸ List.mem_cons_self _ _)
    exact hxy (hx.trans hy.symm)

theorem gaMutate_inv (ts0 : List TrainsetData) (maxPos : ℕ)
    (child : Assignment) (pick_t pick_k : ℕ)
    (h : StrongInv ts0 maxPos child) :
    StrongInv ts0 maxPos (gaMutate child maxPos pick_t pick_k) := by
  unfold gaMutate
  dsimp only
  split_ifs with h1 h2
  · have hnew : pickFrom
        ((List.range maxPos).filter (fun p => decide (p ∉ valsOf child)))
        pick_k ∈
        (List.range maxPos).filter (fun p => decide (p ∉ valsOf child)) :=
      pickFrom_mem _ _ h2
    have hmem := List.mem_filter.mp hnew
    have hklen : pick_t % child.length < (keysOf child).length := by
      rw [keysOf, List.length_map]
      exact Nat.mod_lt _ (List.length_pos.mpr h1)
    have hkmem : (keysOf child).getD (pick_t % child.length) "" ∈ keysOf child := by
      rw [List.getD_eq_getElem _ _ hklen]
      exact List.getElem_mem hklen
    exact updateVal_strongInv ts0 maxPos child _ _ h
      (by simpa using hmem.2) (List.mem_range.mp hmem.1) hkmem
  · exact h
  · exact h

theorem saMove_inv (ts0 : List TrainsetData) (maxPos : ℕ) (s : Assignment)
    (pick_t pick_k : ℕ) (h : StrongInv ts0 maxPos s) :
    StrongInv ts0 maxPos (saMove s maxPos pick_t pick_k) := by
  unfold saMove
  dsimp only
  split_ifs with h1 h2
  · set old_pos := (lookupPos s ((keysOf s).getD (pick_t % s.length) "")).getD 0
      with hold
    set avail := (List.range maxPos).filter
      (fun p => decide (p ∉ valsOf s ∨ p = old_pos)) with havail
    have hcands : avail.filter (fun p => decide (p ≠ old_pos)) ≠ [] := by
      intro hnil
      have hall : ∀ x ∈ avail, x = old_pos := by
        intro x hx
        by_contra hne
        have : x ∈ avail.filter (fun p => decide (p ≠ old_pos)) :=
          List.mem_filter.mpr ⟨hx, by simpa using hne⟩
        rw [hnil] at this
        cases this
      have hnd : avail.Nodup := List.Nodup.filter _ (List.nodup_range _)
      have := length_le_one_of_forall_eq hnd hall
      omega
    have hnewmem : pickFrom (avail.filter (fun p => decide (p ≠ old_pos)))
        pick_k ∈ avail.filter (fun p => decide (p ≠ old_pos)) :=
      pickFrom_mem _ _ hcands
    have hm1 := List.mem_filter.mp hnewmem
    have hm2 := List.mem_filter.mp hm1.1
    have hne_old : pickFrom (avail.filter (fun p => decide (p ≠ old_pos)))
        pick_k ≠ old_pos := by simpa using hm1.2
    have hnotval : pickFrom (avail.filter (fun p => decide (p ≠ old_pos)))
        pick_k ∉ valsOf s := by
      have := hm2.2
      simp only [decide_eq_true_eq] at this
      rcases this with hnv | ho
      · exact hnv
      · exact absurd ho hne_old
    have hklen : pick_t % s.length < (keysOf s).length := by
      rw [keysOf, List.length_map]
      exact Nat.mod_lt _ (List.length_pos.mpr h1)
    have hkmem : (keysOf s).getD (pick_t % s.length) "" ∈ keysOf s := by
      rw [List.getD_eq_getElem _ _ hklen]
      exact List.getElem_mem hklen
    exact updateVal_strongInv ts0 maxPos s _ _ h hnotval
      (List.mem_range.mp hm2.1) hkmem
  · exact h
  · exact h

theorem keysOf_map_fstPreserving (s : Assignment)
    (f : String × ℕ → String × ℕ) (hf : ∀ p, (f p).1 = p.1) :
    keysOf (s.map f) = keysOf s := by
  unfold keysOf
  rw [List.map_map]
  apply List.map_congr_left
  intro p _
  exact hf p

theorem updateVal_updateVal_ne (s : Assignment) (t1 t2 : String) (v1 v2 : ℕ)
    (hne : t1 ≠ t2) :
    updateVal (updateVal s t1 v1) t2 v2 =
      s.map (fun p => if p.1 == t1 then (p.1, v1)
        else if p.1 == t2 then (p.1, v2) else p) := by
  unfold updateVal
  rw [List.map_map]
  apply List.map_congr_left
  intro p _
  dsimp only [Function.comp]
  by_cases h1 : p.1 == t1
  · have h1' : p.1 = t1 := by simpa using h1
    have h2 : (p.1 == t2) = false := by
      simp only [beq_eq_false_iff_ne, ne_eq]
      rw [h1']
      exact hne
    simp [h1, h2]
  · simp [h1]

theorem saSwap_inv (ts0 : List TrainsetData) (maxPos : ℕ) (s : Assignment)
    (t1 t2 : String) (h : StrongInv ts0 maxPos s) :
    StrongInv ts0 maxPos (saSwap s t1 t2) := by
  obtain ⟨hk, hv, hb, hf⟩ := h
  unfold saSwap
  split_ifs with hne
  · rcases hl1 : lookupPos s t1 with _ | pos1
    · exact ⟨hk, hv, hb, hf⟩
    · rcases hl2 : lookupPos s t2 with _ | pos2
      · exact ⟨hk, hv, hb, hf⟩
      · dsimp only
        have hmem1 : (t1, pos1) ∈ s := mem_of_lookupPos hl1
        have hmem2 : (t2, pos2) ∈ s := mem_of_lookupPos hl2
        have hpw : List.Pairwise (fun p q : String × ℕ => p.2 ≠ q.2) s :=
          List.pairwise_map.mp hv
        have hponeq : pos1 ≠ pos2 := by
          have hmemne : (t1, pos1) ≠ (t2, pos2) := by
            intro he
            exact hne (congrArg Prod.fst he)
          exact hpw.forall (fun p q hpq => hpq.symm) hmem1 hmem2 hmemne
        rw [updateVal_updateVal_ne s t1 t2 pos2 pos1 hne]
        have hbound1 : pos1 < maxPos := hb _ hmem1
        have hbound2 : pos2 < maxPos := hb _ hmem2
        refine ⟨?_, ?_, ?_, ?_⟩
        · rw [keysOf_map_fstPreserving]
          · exact hk
          · intro p
            dsimp only
            split_ifs <;> rfl
        · have hσ : valsOf (s.map (fun p => if p.1 == t1 then (p.1, pos2)
              else if p.1 == t2 then (p.1, pos1) else p)) =
              (valsOf s).map (fun v => if v = pos1 then pos2
                else if v = pos2 then pos1 else v) := by
            unfold valsOf
            rw [List.map_map, List.map_map]
            apply List.map_congr_left
            intro p hp
            dsimp only [Function.comp]
            have hlp : lookupPos s p.1 = some p.2 := lookupPos_eq_of_mem hk hp
            by_cases hp1 : p.1 == t1
            · have hp1' : p.1 = t1 := by simpa using hp1
              have : p.2 = pos1 := by
                rw [hp1'] at hlp
                rw [hlp] at hl1
                exact Option.some.inj hl1
              simp [hp1, this]
            · by_cases hp2 : p.1 == t2
              · have hp2' : p.1 = t2 := by simpa using hp2
                have hval : p.2 = pos2 := by
                  rw [hp2'] at hlp
                  rw [hlp] at hl2
                  exact Option.some.inj hl2
                simp [hp1, hp2, hval, hponeq.symm]
              · have hv1 : p.2 ≠ pos1 := by
                  intro he
                  have hne1 : p ≠ (t1, pos1) := by
                    intro hee
                    exact (by simpa using hp1 : ¬p.1 = t1) (congrArg Prod.fst hee)
                  exact hpw.forall (fun a b hab => hab.symm) hp hmem1 hne1 he
                have hv2 : p.2 ≠ pos2 := by
                  intro he
                  have hne2 : p ≠ (t2, pos2) := by
                    intro hee
                    exact (by simpa using hp2 : ¬p.1 = t2) (congrArg Prod.fst hee)
                  exact hpw.forall (fun a b hab => hab.symm) hp hmem2 hne2 he
                simp [hp1, hp2, hv1, hv2]
          rw [hσ]
          apply List.Nodup.map _ hv
          have hinv : Function.Involutive (fun v => if v = pos1 then pos2
              else if v = pos2 then pos1 else v) := by
            intro v
            dsimp only
            by_cases e1 : v = pos1
            · simp [e1, hponeq.symm, hponeq]
            · by_cases e2 : v = pos2
              · simp [e1, e2]
              · simp [e1, e2]
          exact hinv.injective
        · intro p hp
          rcases List.mem_map.mp hp with ⟨q, hq, rfl⟩
          split_ifs
          · exact hbound2
          · exact hbound1
          · exact hb q hq
        · intro p hp
          rcases List.mem_map.mp hp with ⟨q, hq, rfl⟩
          obtain ⟨t, ht, htid, htf⟩ := hf q hq
          split_ifs <;> exact ⟨t, ht, htid, htf⟩
  · exact ⟨hk, hv, hb, hf⟩

theorem crossover_cons_step (p1 p2 : Assignment) (tid : String) (pos : ℕ)
    (rest : List String) (coins : List Bool) (used : List ℕ)
    (hrec : (keysOf (crossoverAux p1 p2 rest coins (pos :: used))).Nodup ∧
      (valsOf (crossoverAux p1 p2 rest coins (pos :: used))).Nodup ∧
      (∀ v ∈ valsOf (crossoverAux p1 p2 rest coins (pos :: used)),
        v ∉ pos :: used) ∧
      (∀ q ∈ crossoverAux p1 p2 rest coins (pos :: used), q ∈ p1 ∨ q ∈ p2) ∧
      (∀ k ∈ keysOf (crossoverAux p1 p2 rest coins (pos :: used)), k ∈ rest))
    (hparent : (tid, pos) ∈ p1 ∨ (tid, pos) ∈ p2)
    (hpos : pos ∉ used) (htid : tid ∉ rest) :
    (keysOf ((tid, pos) :: crossoverAux p1 p2 rest coins (pos :: used))).Nodup ∧
      (valsOf ((tid, pos) ::
        crossoverAux p1 p2 rest coins (pos :: used))).Nodup ∧
      (∀ v ∈ valsOf ((tid, pos) ::
        crossoverAux p1 p2 rest coins (pos :: used)), v ∉ used) ∧
      (∀ q ∈ (tid, pos) :: crossoverAux p1 p2 rest coins (pos :: used),
        q ∈ p1 ∨ q ∈ p2) ∧
      (∀ k ∈ keysOf ((tid, pos) ::
        crossoverAux p1 p2 rest coins (pos :: used)), k ∈ tid :: rest) := by
  obtain ⟨hrk, hrv, hru, hrp, hrs⟩ := hrec
  refine ⟨?_, ?_, ?_, ?_, ?_⟩
  · simp only [keysOf, List.map_cons, List.nodup_cons]
    exact ⟨fun hmem => htid (hrs _ hmem), hrk⟩
  · simp only [valsOf, List.map_cons, List.nodup_cons]
    exact ⟨fun hmem => (hru _ hmem) (List.mem_cons_self _ _), hrv⟩
  · intro v hvmem
    simp only [valsOf, List.map_cons] at hvmem
    rcases List.mem_cons.mp hvmem with rfl | hv'
    · exact hpos
    · intro hu
      exact (hru _ hv') (List.mem_cons_of_mem _ hu)
  · intro q hq
    rcases List.mem_cons.mp hq with rfl | hq'
    · exact hparent
    · exact hrp q hq'
  · intro k hkmem
    simp only [keysOf, List.map_cons] at hkmem
    rcases List.mem_cons.mp hkmem with rfl | hk'
    · exact List.mem_cons_self _ _
    · exact List.mem_cons_of_mem _ (hrs k hk')

theorem crossoverAux_props (p1 p2 : Assignment) :
    ∀ (order : List String) (coins : List Bool) (used : List ℕ),
      order.Nodup →
      (keysOf (crossoverAux p1 p2 order coins used)).Nodup ∧
        (valsOf (crossoverAux p1 p2 order coins used)).Nodup ∧
        (∀ v ∈ valsOf (crossoverAux p1 p2 order coins used), v ∉ used) ∧
        (∀ q ∈ crossoverAux p1 p2 order coins used, q ∈ p1 ∨ q ∈ p2) ∧
        (∀ k ∈ keysOf (crossoverAux p1 p2 order coins used), k ∈ order) := by
  intro order
  induction order with
  | nil =>
    intro coins used _
    simp [crossoverAux, keysOf, valsOf]
  | cons tid rest ih =>
    intro coins used hnd
    have hnd1 : rest.Nodup := hnd.of_cons
    have htid : tid ∉ rest := (List.nodup_cons.mp hnd).1
    have hweaken :
        (keysOf (crossoverAux p1 p2 rest coins.tail used)).Nodup ∧
          (valsOf (crossoverAux p1 p2 rest coins.tail used)).Nodup ∧
          (∀ v ∈ valsOf (crossoverAux p1 p2 rest coins.tail used), v ∉ used) ∧
          (∀ q ∈ crossoverAux p1 p2 rest coins.tail used, q ∈ p1 ∨ q ∈ p2) ∧
          (∀ k ∈ keysOf (crossoverAux p1 p2 rest coins.tail used),
            k ∈ tid :: rest) := by
      obtain ⟨a, b, c, d, e⟩ := ih coins.tail used hnd1
      exact ⟨a, b, c, d, fun k hk => List.mem_cons_of_mem _ (e k hk)⟩
    unfold crossoverAux
    split_ifs with hcond
    · rcases hl : lookupPos p1 tid with _ | pos
      · rw [hl] at hcond
        simp at hcond
      · dsimp only
        split_ifs with hused
        · exact hweaken
        · exact crossover_cons_step p1 p2 tid pos rest coins.tail used
            (ih coins.tail (pos :: used) hnd1)
            (Or.inl (mem_of_lookupPos hl)) hused htid
    · rcases hl : lookupPos p2 tid with _ | pos
      · exact hweaken
      · dsimp only
        split_ifs with hused
        · exact hweaken
        · exact crossover_cons_step p1 p2 tid pos rest coins.tail used
            (ih coins.tail (pos :: used) hnd1)
            (Or.inr (mem_of_lookupPos hl)) hused htid

theorem crossoverAux_strongInv (ts0 : List TrainsetData) (maxPos : ℕ)
    (p1 p2 : Assignment) (order : List String) (coins : List Bool)
    (h1 : StrongInv ts0 maxPos p1) (h2 : StrongInv ts0 maxPos p2)
    (hnd : order.Nodup) :
    StrongInv ts0 maxPos (crossoverAux p1 p2 order coins []) := by
  obtain ⟨hk, hv, -, hp, -⟩ := crossoverAux_props p1 p2 order coins [] hnd
  refine ⟨hk, hv, ?_, ?_⟩
  · intro p hpmem
    rcases hp p hpmem with hq | hq
    · exact h1.2.2.1 p hq
    · exact h2.2.2.1 p hq
  · intro p hpmem
    rcases hp p hpmem with hq | hq
    · exact h1.2.2.2 p hq
    · exact h2.2.2.2 p hq

/-! ## Invariants of the exact driver's extraction -/

theorem cpExtract_foldl_inv (trainsets : List TrainsetData) (maxPos : ℕ)
    (x : String → ℕ → Bool) (hcol : cpColOk trainsets maxPos x) :
    ∀ (todo : List TrainsetData) (A : Assignment),
      (∀ t ∈ todo, t ∈ trainsets) →
      (keysOf A).Nodup → (valsOf A).Nodup →
      (∀ p ∈ A, ∃ t ∈ trainsets, t.trainset_id = p.1) →
      (∀ p ∈ A, (List.range maxPos).find? (fun j => x p.1 j) = some p.2) →
      (keysOf (todo.foldl (cpExtractStep maxPos x) A)).Nodup ∧
        (valsOf (todo.foldl (cpExtractStep maxPos x) A)).Nodup ∧
        (∀ p ∈ todo.foldl (cpExtractStep maxPos x) A,
          ∃ t ∈ trainsets, t.trainset_id = p.1) ∧
        (∀ p ∈ todo.foldl (cpExtractStep maxPos x) A,
          (List.range maxPos).find? (fun j => x p.1 j) = some p.2) := by
  intro todo
  induction todo with
  | nil =>
    intro A _ h1 h2 h3 h4
    exact ⟨h1, h2, h3, h4⟩
  | cons t rest ih =>
    intro A hsub h1 h2 h3 h4
    rw [List.foldl_cons]
    have hsub' : ∀ u ∈ rest, u ∈ trainsets :=
      fun u hu => hsub u (List.mem_cons_of_mem _ hu)
    have htmem : t ∈ trainsets := hsub t (List.mem_cons_self _ _)
    unfold cpExtractStep
    rcases hfind : (List.range maxPos).find? (fun j => x t.trainset_id j)
      with _ | j
    · dsimp only
      exact ih A hsub' h1 h2 h3 h4
    · have hxj : x t.trainset_id j = true := by
        have := List.find?_some hfind
        simpa using this
      have hjrange : j ∈ List.range maxPos := List.mem_of_find?_eq_some hfind
      by_cases hkeymem : t.trainset_id ∈ keysOf A
      · obtain ⟨v0, hv0⟩ := exists_val_of_mem_keys hkeymem
        have hfv0 := h4 _ hv0
        dsimp only at hfv0
        have hvj : v0 = j := by
          rw [hfv0] at hfind
          exact Option.some.inj hfind
        have heq : dictInsert A t.trainset_id j = A := by
          unfold dictInsert
          rw [if_pos (List.elem_eq_true_of_mem hkeymem)]
          exact updateVal_mem_self h1 (hvj ▸ hv0)
        dsimp only
        rw [heq]
        exact ih A hsub' h1 h2 h3 h4
      · have hjfresh : j ∉ valsOf A := by
          intro hjval
          rcases List.mem_map.mp hjval with ⟨p, hp, hpj⟩
          obtain ⟨t', ht', ht'id⟩ := h3 p hp
          have hfp := h4 p hp
          have hxp : x p.1 p.2 = true := by
            have := List.find?_some hfp
            simpa using this
          have hne : t' ≠ t := by
            intro he
            apply hkeymem
            have hid : t.trainset_id = p.1 := by rw [← he]; exact ht'id
            rw [hid]
            exact List.mem_map_of_mem Prod.fst hp
          have h2le : 2 ≤ (trainsets.filter
              (fun tt => x tt.trainset_id j)).length :=
            @two_le_length_filter _ trainsets (fun tt => x tt.trainset_id j)
              t' t hne ht' htmem
              (by dsimp only; rw [ht'id, ← hpj]; exact hxp)
              (by dsimp only; exact hxj)
          have hle := hcol j hjrange
          omega
        dsimp only
        refine ih (dictInsert A t.trainset_id j) hsub'
          (keysOf_dictInsert_nodup h1)
          (valsOf_dictInsert_nodup h1 h2 hjfresh) ?_ ?_
        · intro p hp
          rcases mem_dictInsert hp with hp' | hp'
          · exact h3 p hp'
          · exact ⟨t, htmem, by rw [hp']⟩
        · intro p hp
          rcases mem_dictInsert hp with hp' | hp'
          · exact h4 p hp'
          · rw [hp']
            exact hfind

theorem cpExtract_inv (trainsets : List TrainsetData) (maxPos : ℕ)
    (x : String → ℕ → Bool) (hcol : cpColOk trainsets maxPos x)
    (hhard : cpHardOk trainsets maxPos x) :
    injectiveAndFeasible trainsets (cpExtract trainsets maxPos x) := by
  obtain ⟨-, hv, hid, hfind⟩ :=
    cpExtract_foldl_inv trainsets maxPos x hcol trainsets []
      (fun t ht => ht) (by simp [keysOf]) (by simp [valsOf]) (by simp) (by simp)
  refine ⟨hv, ?_⟩
  intro p hp
  obtain ⟨t, ht, htid⟩ := hid p hp
  refine ⟨t, ht, htid, ?_⟩
  have hxf : x p.1 p.2 = true := by
    have := List.find?_some (hfind p hp)
    simpa using this
  have hmem : p.2 ∈ List.range maxPos := List.mem_of_find?_eq_some (hfind p hp)
  by_contra hnf
  have hbad : ¬t.fitness_valid ∨ t.has_high_priority_jobs := by
    by_cases hj : t.has_high_priority_jobs
    · exact Or.inr hj
    · by_cases hfit : t.fitness_valid
      · exact absurd ⟨hfit, hj⟩ hnf
      · exact Or.inl hfit
  have hzero := hhard t ht hbad p.2 (List.mem_range.mp hmem)
  rw [htid] at hzero
  rw [hzero] at hxf
  cases hxf

/-! ## Claim C1: driver outputs are injective and hard-feasible -/

theorem gaReachable_inv (trainsets : List TrainsetData) (maxPos : ℕ)
    (A : Assignment) (h : gaReachable trainsets maxPos A) :
    StrongInv trainsets maxPos A := by
  induction h with
  | empty => exact ⟨by simp [keysOf], by simp [valsOf], by simp, by simp⟩
  | init choices => exact randomInit_inv trainsets maxPos choices
  | cross p1 p2 order coins h1 h2 horder ih1 ih2 =>
    exact crossoverAux_strongInv trainsets maxPos p1 p2 order coins ih1 ih2 horder
  | mutate child pick_t pick_k h ih =>
    exact gaMutate_inv trainsets maxPos child pick_t pick_k ih

theorem saReachable_inv (trainsets : List TrainsetData) (maxPos : ℕ)
    (A : Assignment) (h : saReachable trainsets maxPos A) :
    StrongInv trainsets maxPos A := by
  induction h with
  | init choices => exact randomInit_inv trainsets maxPos choices
  | swap s t1 t2 h ih => exact saSwap_inv trainsets maxPos s t1 t2 ih
  | move s pick_t pick_k h ih => exact saMove_inv trainsets maxPos s pick_t pick_k ih

/-- C1 (amended): every assignment any of the three optimizer drivers
can return — a constraint-satisfying CP-SAT extraction, any member of a
genetic-algorithm population, any solution visited by simulated
annealing — is injective, and every trainset in its domain passes the
drivers' hard feasibility checks: valid fitness certificate and no open
high-priority job card.  (The claim's further condition that the
trainset's operational status be `available` is not checked by any
driver; see the counterexample.) -/
theorem c1_driver_assignments_injective_feasible
    (trainsets : List TrainsetData) (maxPos : ℕ) :
    (∀ x : String → ℕ → Bool, cpColOk trainsets maxPos x →
      cpHardOk trainsets maxPos x →
        injectiveAndFeasible trainsets (cpExtract trainsets maxPos x)) ∧
      (∀ A, gaReachable trainsets maxPos A →
        injectiveAndFeasible trainsets A) ∧
      (∀ A, saReachable trainsets maxPos A →
        injectiveAndFeasible trainsets A) := by
  refine ⟨fun x hcol hhard => cpExtract_inv trainsets maxPos x hcol hhard,
    fun A hA => ?_, fun A hA => ?_⟩
  · obtain ⟨-, hv, -, hf⟩ := gaReachable_inv trainsets maxPos A hA
    exact ⟨hv, hf⟩
  · obtain ⟨-, hv, -, hf⟩ := saReachable_inv trainsets maxPos A hA
    exact ⟨hv, hf⟩

/-- Witness for C1: the genetic driver's random initializer on a
one-trainset fleet yields `[("T1", 0)]`, which the theorem certifies
injective and hard-feasible. -/
theorem c1_driver_assignments_injective_feasible_witness :
    injectiveAndFeasible [⟨"T1", "AVAILABLE", true, false, 0, 1⟩]
      [("T1", 0)] :=
  (c1_driver_assignments_injective_feasible
      [⟨"T1", "AVAILABLE", true, false, 0, 1⟩] 1).2.1 [("T1", 0)]
    (by
      have he : randomInit [⟨"T1", "AVAILABLE", true, false, 0, 1⟩] 1
          [(true, 0)] = [("T1", 0)] := by decide
      exact he ▸
        @gaReachable.init [⟨"T1", "AVAILABLE", true, false, 0, 1⟩] 1
          [(true, 0)])

/-- C1 (corrected), counterexample: the genetic driver can return an
assignment whose only trainset is in `MAINTENANCE` status — fit and
job-free, but not `available` — because no driver consults the
operational status. -/
theorem c1_claim_counterexample :
    gaReachable [c1MaintTrainset] 1 [("TM", 0)] ∧
      ("TM", 0) ∈ ([("TM", 0)] : Assignment) ∧
      ∀ t ∈ [c1MaintTrainset], t.trainset_id = "TM" →
        t.status ≠ "AVAILABLE" := by
  refine ⟨?_, by decide, by decide⟩
  have he : randomInit [c1MaintTrainset] 1 [(true, 0)] = [("TM", 0)] := by
    decide
  exact he ▸ @gaReachable.init [c1MaintTrainset] 1 [(true, 0)]

/-! ## Claim C3: what the CP-SAT objective actually computes -/

theorem sum_indicator_range (n : ℕ) (o : Option ℕ) (f : ℕ → ℤ) :
    ((List.range n).map (fun j => if o == some j then f j else 0)).sum =
      (match o with
       | some j0 => if j0 < n then f j0 else 0
       | none => 0) := by
  induction n with
  | zero => cases o <;> simp
  | succ m ih =>
    rw [List.range_succ, List.map_append, List.sum_append, ih]
    cases o with
    | none => simp
    | some j0 =>
      simp only [List.map_cons, List.map_nil, List.sum_cons, List.sum_nil,
        add_zero, beq_iff_eq, Option.some.injEq]
      by_cases h1 : j0 < m
      · have h2 : ¬j0 = m := by omega
        have h3 : j0 < m + 1 := by omega
        simp [h1, h2, h3]
      · by_cases h2 : j0 = m
        · subst h2
          simp [h1, Nat.lt_succ_self]
        · have h3 : ¬j0 < m + 1 := by omega
          simp [h1, h2, h3]

/-- C3 (amended): for every fleet, every position count and every
candidate assignment, the linear objective the CP-SAT model maximizes
evaluates, at the 0/1 valuation induced by the assignment, to the sum
over assigned fleet trainsets of the model's own per-pair coefficient
`100 + 50·[fitness] + max(0, 50 − int(mileage/1000)) +
10·branding_priority + max(0, 20 − position)` — a different linear
function from the shared scoring function of §4.1, so the exact driver
does *not* optimize the same objective as the two metaheuristic
drivers. -/
theorem c3_cp_objective_value (trainsets : List TrainsetData) (maxPos : ℕ)
    (A : Assignment) :
    cpObjectiveValue (cpObjectiveTerms trainsets maxPos) (indicatorOf A) =
      cpObjectiveClosedForm trainsets maxPos A := by
  unfold cpObjectiveValue cpObjectiveTerms cpObjectiveClosedForm indicatorOf
  induction trainsets with
  | nil => simp
  | cons t rest ih =>
    rw [List.flatMap_cons, List.map_append, List.sum_append, List.map_cons,
      List.sum_cons, List.map_map]
    have hcomp : ((fun term : String × ℕ × ℤ =>
          if lookupPos A term.1 == some term.2.1 then term.2.2 else 0) ∘
        (fun j => (t.trainset_id, j, cpCoeff t j))) =
        (fun j => if lookupPos A t.trainset_id == some j
          then cpCoeff t j else 0) := rfl
    rw [hcomp, sum_indicator_range, ih]

/-- C3 (corrected), counterexample: on a one-trainset fleet (valid
fitness, mileage 0, branding 1) assigned to position 0, the CP-SAT
objective evaluates to 230 while the shared scoring function returns
266 — the exact driver's objective is not the linearization of the
shared score. -/
theorem c3_claim_counterexample :
    ((cpObjectiveValue (cpObjectiveTerms [c3Trainset] 1)
        (indicatorOf [("T1", 0)]) : ℤ) : ℚ) ≠
      calculate_solution_score [("T1", 0)] [c3Trainset] := by
  have htr0 : ratTrunc ((0 : ℚ) / 1000) = 0 := by
    have hd : ((0 : ℚ) / 1000) = 0 := by norm_num
    rw [hd]
    rfl
  have hterms : cpObjectiveTerms [c3Trainset] 1 = [("T1", 0, 230)] := by
    unfold cpObjectiveTerms c3Trainset cpCoeff
    rw [show List.range 1 = [0] from rfl]
    simp only [List.flatMap_cons, List.flatMap_nil, List.map_cons, List.map_nil,
      List.append_nil, List.cons_append, List.nil_append]
    rw [htr0]
    decide
  have h1 : cpObjectiveValue (cpObjectiveTerms [c3Trainset] 1)
      (indicatorOf [("T1", 0)]) = 230 := by
    rw [hterms]
    decide
  have h2 : calculate_solution_score [("T1", 0)] [c3Trainset] = 266 := by
    norm_num [calculate_solution_score, trainsetDict, pairScoreCode, avgMileage,
      c3Trainset, mileage_balance_weight, branding_priority_weight, List.find?]
  rw [h1, h2]
  norm_num

/-! ## Claim C4: the exact driver on the three-identical-trainsets
scenario -/

theorem c4_terms_eval : cpObjectiveTerms c4Fleet 3 = c4TermsLit := by
  have htr : ratTrunc ((50000 : ℚ) / 1000) = 50 := by
    have hd : ((50000 : ℚ) / 1000) = 50 := by norm_num
    rw [hd]
    rfl
  unfold cpObjectiveTerms c4Fleet cpCoeff
  rw [show List.range 3 = [0, 1, 2] from rfl]
  simp only [List.flatMap_cons, List.flatMap_nil, List.map_cons, List.map_nil,
    List.append_nil, List.cons_append, List.nil_append]
  rw [htr]
  decide

theorem c4_score_perms : ∀ P ∈ c4Perms, calculate_solution_score P c4Fleet = 792 := by
  have hd1 : trainsetDict c4Fleet "TS1" =
      some ⟨"TS1", "AVAILABLE", true, false, 50000, 1⟩ := by decide
  have hd2 : trainsetDict c4Fleet "TS2" =
      some ⟨"TS2", "AVAILABLE", true, false, 50000, 1⟩ := by decide
  have hd3 : trainsetDict c4Fleet "TS3" =
      some ⟨"TS3", "AVAILABLE", true, false, 50000, 1⟩ := by decide
  have havg : avgMileage c4Fleet = 50000 := by
    norm_num [avgMileage, c4Fleet, List.map_cons, List.map_nil, List.sum_cons,
      List.sum_nil]
  intro P hP
  fin_cases hP <;>
    norm_num [calculate_solution_score, hd1, hd2, hd3, pairScoreCode, havg,
      mileage_balance_weight, branding_priority_weight]

set_option maxRecDepth 8192 in
theorem c4_opt_lit (σ : Fin 3 → Option (Fin 3)) (hcol : c4ColOk σ)
    (hopt : ∀ τ : Fin 3 → Option (Fin 3), c4ColOk τ →
      cpObjectiveValue c4TermsLit (c4x τ) ≤ cpObjectiveValue c4TermsLit (c4x σ)) :
    List.Perm (valsOf (cpExtract c4Fleet 3 (c4x σ))) [0, 1, 2] ∧
      cpExtract c4Fleet 3 (c4x σ) ∈ c4Perms := by
  revert σ
  decide

/-- C4 (amended): any column-feasible valuation maximizing the CP-SAT
objective on the C4 instance assigns exactly the positions
{0, 1, 2}, and the shared scoring function values the extracted
assignment at 792 (= 3·(100 + 50 + 0.6·100 + 0.3·20) + 50 + 48 + 46),
not the 810 the claim states. -/
theorem c4_exact_driver_tiebreak (σ : Fin 3 → Option (Fin 3))
    (hcol : c4ColOk σ)
    (hopt : ∀ τ : Fin 3 → Option (Fin 3), c4ColOk τ →
      cpObjectiveValue (cpObjectiveTerms c4Fleet 3) (c4x τ) ≤
        cpObjectiveValue (cpObjectiveTerms c4Fleet 3) (c4x σ)) :
    List.Perm (valsOf (cpExtract c4Fleet 3 (c4x σ))) [0, 1, 2] ∧
      calculate_solution_score (cpExtract c4Fleet 3 (c4x σ)) c4Fleet = 792 := by
  have hopt' : ∀ τ : Fin 3 → Option (Fin 3), c4ColOk τ →
      cpObjectiveValue c4TermsLit (c4x τ) ≤
        cpObjectiveValue c4TermsLit (c4x σ) := by
    intro τ hτ
    have h := hopt τ hτ
    rwa [c4_terms_eval] at h
  obtain ⟨hperm, hmem⟩ := c4_opt_lit σ hcol hopt'
  exact ⟨hperm, c4_score_perms _ hmem⟩

/-- Witness for C4 at the identity solution. -/
theorem c4_exact_driver_tiebreak_witness :
    List.Perm (valsOf (cpExtract c4Fleet 3 (c4x (fun i => some i)))) [0, 1, 2] ∧
      calculate_solution_score (cpExtract c4Fleet 3 (c4x (fun i => some i)))
        c4Fleet = 792 :=
  c4_exact_driver_tiebreak (fun i => some i) (by decide)
    (by
      intro τ hτ
      rw [c4_terms_eval]
      exact (by decide : ∀ τ' : Fin 3 → Option (Fin 3), c4ColOk τ' →
        cpObjectiveValue c4TermsLit (c4x τ') ≤
          cpObjectiveValue c4TermsLit (c4x (fun i => some i))) τ hτ)

/-- C4 (corrected), counterexample: the identity solution is
column-feasible and objective-optimal for the C4 instance, yet the
score the driver reports for its extracted assignment is 792, not
810. -/
theorem c4_claim_counterexample :
    c4ColOk (fun i => some i) ∧
      (∀ τ : Fin 3 → Option (Fin 3), c4ColOk τ →
        cpObjectiveValue (cpObjectiveTerms c4Fleet 3) (c4x τ) ≤
          cpObjectiveValue (cpObjectiveTerms c4Fleet 3)
            (c4x (fun i => some i))) ∧
      calculate_solution_score (cpExtract c4Fleet 3 (c4x (fun i => some i)))
        c4Fleet ≠ 810 := by
  refine ⟨by decide, ?_, ?_⟩
  · intro τ hτ
    rw [c4_terms_eval]
    exact (by decide : ∀ τ' : Fin 3 → Option (Fin 3), c4ColOk τ' →
      cpObjectiveValue c4TermsLit (c4x τ') ≤
        cpObjectiveValue c4TermsLit (c4x (fun i => some i))) τ hτ
  · have hex : cpExtract c4Fleet 3 (c4x (fun i => some i)) =
        [("TS1", 0), ("TS2", 1), ("TS3", 2)] := by decide
    rw [hex]
    have h792 := c4_score_perms [("TS1", 0), ("TS2", 1), ("TS3", 2)]
      (by unfold c4Perms; exact List.mem_cons_self _ _)
    rw [h792]
    norm_num

end NavYatra
